import Mathlib

/-!
# Verification of the pass_vault credential core

Shallow embedding of the credential-vault core of `kaqfa/pass_vault`
(Django application `pass_man`): per-record key derivation and
encryption (`apps/passwords/models.py`), the password service layer
(`apps/passwords/services.py`), the password generator, and directory
validation (`apps/directories/models.py`).

Byte strings are `List Nat` with every element `< 256`.  The
third-party cryptographic primitives (`cryptography.fernet.Fernet`,
`PBKDF2HMAC`) are not part of the repository; they are modelled from
the specification as an idealized authenticated cipher and an
idealized injective key-derivation function.  Everything else is
translated directly from the source.
-/

namespace PassVault

/-! ## Byte-string encodings -/

/-- Injective encoding of a byte list into a natural number
(base-257 digits `b+1`, so no leading-zero ambiguity).  Support for
the idealized KDF / MAC below. -/
def encodeList : List Nat → Nat
  | [] => 0
  | b :: bs => encodeList bs * 257 + (b + 1)

/-- Fuel-driven worker for `decodeList` (structural recursion keeps it
kernel-reducible). -/
def decodeListAux : Nat → Nat → Option (List Nat)
  | 0, n => if n = 0 then some [] else none
  | fuel + 1, n =>
      if n = 0 then some []
      else if n % 257 = 0 then none
      else
        match decodeListAux fuel (n / 257) with
        | none => none
        | some bs => some ((n % 257 - 1) :: bs)

/-- Left inverse of `encodeList` on byte lists. -/
def decodeList (n : Nat) : Option (List Nat) :=
  decodeListAux n n

theorem decodeListAux_irrel : ∀ n f g, n ≤ f → n ≤ g →
    decodeListAux f n = decodeListAux g n := by
  intro n
  induction n using Nat.strong_induction_on with
  | _ n ih =>
    intro f g hf hg
    by_cases hn : n = 0
    · subst hn
      cases f <;> cases g <;> simp [decodeListAux]
    · have hf1 : ∃ f', f = f' + 1 := ⟨f - 1, by omega⟩
      have hg1 : ∃ g', g = g' + 1 := ⟨g - 1, by omega⟩
      obtain ⟨f', rfl⟩ := hf1
      obtain ⟨g', rfl⟩ := hg1
      have hlt : n / 257 < n := Nat.div_lt_self (Nat.pos_of_ne_zero hn) (by omega)
      rw [decodeListAux, decodeListAux]
      rw [ih (n / 257) hlt f' g' (by omega) (by omega)]

theorem decodeList_eq (n : Nat) :
    decodeList n = if n = 0 then some []
      else if n % 257 = 0 then none
      else
        match decodeList (n / 257) with
        | none => none
        | some bs => some ((n % 257 - 1) :: bs) := by
  by_cases hn : n = 0
  · subst hn; simp [decodeList, decodeListAux]
  · have h1 : ∃ n', n = n' + 1 := ⟨n - 1, by omega⟩
    obtain ⟨n', rfl⟩ := h1
    rw [decodeList, decodeListAux]
    have hlt : (n' + 1) / 257 ≤ n' := by omega
    rw [decodeListAux_irrel ((n' + 1) / 257) n' ((n' + 1) / 257) hlt (by omega)]
    rfl

theorem decodeList_encodeList (bs : List Nat) (hb : ∀ b ∈ bs, b < 256) :
    decodeList (encodeList bs) = some bs := by
  induction bs with
  | nil => simp [decodeList, decodeListAux, encodeList]
  | cons b bs ih =>
      have hb' : b < 256 := hb b (by simp)
      have hbs : ∀ x ∈ bs, x < 256 := fun x hx => hb x (by simp [hx])
      have hmod : (encodeList bs * 257 + (b + 1)) % 257 = b + 1 := by
        omega
      have hdiv : (encodeList bs * 257 + (b + 1)) / 257 = encodeList bs := by
        omega
      rw [encodeList, decodeList_eq]
      rw [if_neg (by omega)]
      rw [hmod, hdiv]
      rw [if_neg (by omega)]
      rw [ih hbs]
      simp

/-- Fuel-driven worker for `natToBytes`. -/
def natToBytesAux : Nat → Nat → List Nat
  | 0, _ => []
  | fuel + 1, n => if n = 0 then [] else n % 256 :: natToBytesAux fuel (n / 256)

/-- Little-endian base-256 digits of a natural number (canonical: no
trailing zero byte). -/
def natToBytes (n : Nat) : List Nat :=
  natToBytesAux n n

theorem natToBytesAux_irrel : ∀ n f g, n ≤ f → n ≤ g →
    natToBytesAux f n = natToBytesAux g n := by
  intro n
  induction n using Nat.strong_induction_on with
  | _ n ih =>
    intro f g hf hg
    by_cases hn : n = 0
    · subst hn
      cases f <;> cases g <;> simp [natToBytesAux]
    · obtain ⟨f', rfl⟩ : ∃ f', f = f' + 1 := ⟨f - 1, by omega⟩
      obtain ⟨g', rfl⟩ : ∃ g', g = g' + 1 := ⟨g - 1, by omega⟩
      have hlt : n / 256 < n := Nat.div_lt_self (Nat.pos_of_ne_zero hn) (by omega)
      rw [natToBytesAux, natToBytesAux]
      rw [ih (n / 256) hlt f' g' (by omega) (by omega)]

theorem natToBytes_eq (n : Nat) :
    natToBytes n = if n = 0 then [] else n % 256 :: natToBytes (n / 256) := by
  by_cases hn : n = 0
  · subst hn; simp [natToBytes, natToBytesAux]
  · obtain ⟨n', rfl⟩ : ∃ n', n = n' + 1 := ⟨n - 1, by omega⟩
    rw [natToBytes, natToBytesAux]
    rw [natToBytesAux_irrel ((n' + 1) / 256) n' ((n' + 1) / 256) (by omega) (by omega)]
    rfl

/-- Value of a little-endian base-256 byte list. -/
def bytesToNat : List Nat → Nat
  | [] => 0
  | b :: bs => bytesToNat bs * 256 + b

theorem bytesToNat_natToBytes (n : Nat) : bytesToNat (natToBytes n) = n := by
  induction n using Nat.strong_induction_on with
  | _ n ih =>
    rw [natToBytes_eq]
    by_cases h : n = 0
    · simp [h, bytesToNat]
    · rw [if_neg h]
      rw [bytesToNat, ih (n / 256) (Nat.div_lt_self (Nat.pos_of_ne_zero h) (by omega))]
      omega

theorem natToBytes_lt (n : Nat) : ∀ b ∈ natToBytes n, b < 256 := by
  induction n using Nat.strong_induction_on with
  | _ n ih =>
    rw [natToBytes_eq]
    by_cases h : n = 0
    · simp [h]
    · rw [if_neg h]
      intro b hb
      rcases List.mem_cons.mp hb with h1 | h2
      · omega
      · exact ih (n / 256) (Nat.div_lt_self (Nat.pos_of_ne_zero h) (by omega)) b h2

/-- XOR-fold of a byte list (`0` for the empty list). -/
def foldXor : List Nat → Nat
  | [] => 0
  | b :: bs => b ^^^ foldXor bs

theorem foldXor_lt (l : List Nat) (h : ∀ b ∈ l, b < 256) : foldXor l < 256 := by
  induction l with
  | nil => simp [foldXor]
  | cons b bs ih =>
      have h1 : b < 256 := h b (by simp)
      have h2 : foldXor bs < 256 := ih (fun x hx => h x (by simp [hx]))
      have : b ^^^ foldXor bs < 2 ^ 8 :=
        Nat.xor_lt_two_pow (by omega) (by omega)
      simpa [foldXor] using this

theorem foldXor_append (l₁ l₂ : List Nat) :
    foldXor (l₁ ++ l₂) = foldXor l₁ ^^^ foldXor l₂ := by
  induction l₁ with
  | nil => simp [foldXor]
  | cons b bs ih => simp [foldXor, ih, Nat.xor_assoc]

/-- Flip bit `j` of the byte at index `i` (identity when `i` is out of
range). -/
def flipBitAt (l : List Nat) (i j : Nat) : List Nat :=
  l.set i (l.getD i 0 ^^^ 2 ^ j)

theorem xor_left_comm (a b c : Nat) : a ^^^ (b ^^^ c) = b ^^^ (a ^^^ c) := by
  rw [← Nat.xor_assoc, Nat.xor_comm a b, Nat.xor_assoc]

theorem xor_cancel_left (a b : Nat) : a ^^^ (a ^^^ b) = b := by
  rw [← Nat.xor_assoc, Nat.xor_self, Nat.zero_xor]

theorem foldXor_set (l : List Nat) (i : Nat) (v : Nat) (h : i < l.length) :
    foldXor (l.set i v) = foldXor l ^^^ l.getD i 0 ^^^ v := by
  induction l generalizing i with
  | nil => simp at h
  | cons b bs ih =>
      cases i with
      | zero =>
          simp only [List.set, foldXor, List.getD_cons_zero]
          simp [Nat.xor_comm, Nat.xor_assoc, xor_left_comm, xor_cancel_left]
      | succ i =>
          simp only [List.set, foldXor, List.getD_cons_succ]
          rw [ih i (by simpa using h)]
          simp [Nat.xor_comm, Nat.xor_assoc, xor_left_comm, xor_cancel_left]

theorem foldXor_flipBitAt (l : List Nat) (i j : Nat) (h : i < l.length) :
    foldXor (flipBitAt l i j) = foldXor l ^^^ 2 ^ j := by
  rw [flipBitAt, foldXor_set l i _ h]
  simp [Nat.xor_assoc, xor_left_comm, xor_cancel_left]

theorem encodeList_injective (xs ys : List Nat)
    (hx : ∀ b ∈ xs, b < 256) (hy : ∀ b ∈ ys, b < 256)
    (h : encodeList xs = encodeList ys) : xs = ys := by
  have h1 := decodeList_encodeList xs hx
  have h2 := decodeList_encodeList ys hy
  rw [h, h2] at h1
  exact (Option.some.injEq _ _ ▸ h1).symm

/-! ## Key derivation and the authenticated cipher

`Password._generate_key` (models.py lines 231-242) derives a 32-byte
key with `PBKDF2HMAC(SHA256, length=32, salt=password_id.encode(),
iterations=100000)` applied to `group_key.encode()`.  PBKDF2 lives in
the `cryptography` package, outside this repository.

Modelled from the spec: the key-derivation function is "deterministic
given identical inputs" and "salted by the record identifier
(guarantees distinct keys per record even under a shared group
secret)"; it is idealized as an injective pairing of the secret bytes
and the salt bytes.  Key material is a single natural number. -/
def generate_key (group_key password_id : List Nat) : Nat :=
  Nat.pair (encodeList group_key) (encodeList password_id)

/-- Byte `i` of the keystream for `key` (idealized stream cipher). -/
def keyStream (key i : Nat) : Nat :=
  Nat.pair key i % 256

/-- XOR the bytes of `data` with the keystream starting at position
`i`.  Involutive, so it serves as both encryption and decryption. -/
def cipherFrom (key i : Nat) : List Nat → List Nat
  | [] => []
  | b :: bs => (b ^^^ keyStream key i) :: cipherFrom key (i + 1) bs

def cipherBytes (key : Nat) (data : List Nat) : List Nat :=
  cipherFrom key 0 data

theorem cipherFrom_cipherFrom (key i : Nat) (data : List Nat) :
    cipherFrom key i (cipherFrom key i data) = data := by
  induction data generalizing i with
  | nil => simp [cipherFrom]
  | cons b bs ih =>
      simp [cipherFrom, ih, Nat.xor_assoc, Nat.xor_self, Nat.xor_zero]

theorem cipherFrom_lt (key i : Nat) (data : List Nat) (h : ∀ b ∈ data, b < 256) :
    ∀ b ∈ cipherFrom key i data, b < 256 := by
  induction data generalizing i with
  | nil => simp [cipherFrom]
  | cons b bs ih =>
      intro x hx
      rcases List.mem_cons.mp hx with h1 | h2
      · subst h1
        have hb : b < 2 ^ 8 := by have := h b (by simp); omega
        have hk : keyStream key i < 2 ^ 8 := by
          have : keyStream key i < 256 := Nat.mod_lt _ (by omega)
          omega
        have := Nat.xor_lt_two_pow hb hk
        omega
      · exact ih (i + 1) (fun x hx => h x (by simp [hx])) x h2

theorem cipherFrom_length (key i : Nat) (data : List Nat) :
    (cipherFrom key i data).length = data.length := by
  induction data generalizing i with
  | nil => rfl
  | cons b bs ih => simp [cipherFrom, ih]

/-- Base-258 digit encoding of a byte list on top of a tail value
(digits `b+1` in `1..256`; digit `257` never occurs, so it can act as
a separator). -/
def enc258 : List Nat → Nat → Nat
  | [], tail => tail
  | b :: bs, tail => enc258 bs tail * 258 + (b + 1)

/-- Read base-258 digits up to the separator digit `257`; returns the
bytes before the separator and the remaining value. -/
def splitTag : Nat → Nat → Option (List Nat × Nat)
  | 0, _ => none
  | fuel + 1, m =>
      if m = 0 then none
      else if m % 258 = 257 then some ([], m / 258)
      else if m % 258 = 0 then none
      else
        match splitTag fuel (m / 258) with
        | none => none
        | some p => some ((m % 258 - 1) :: p.1, p.2)

/-- Read base-258 byte digits down to zero. -/
def dec258 : Nat → Nat → Option (List Nat)
  | 0, m => if m = 0 then some [] else none
  | fuel + 1, m =>
      if m = 0 then some []
      else if m % 258 = 0 then none
      else if m % 258 = 257 then none
      else
        match dec258 fuel (m / 258) with
        | none => none
        | some bs => some ((m % 258 - 1) :: bs)

/-- Injective encoding of the key bytes, a separator, and the
ciphertext bytes into one value. -/
def encTagged (key : Nat) (ct : List Nat) : Nat :=
  enc258 (natToBytes key) (257 + 258 * enc258 ct 0)

/-- Modelled from the spec: `cryptography.fernet.Fernet` is
"authenticated symmetric encryption (confidentiality + integrity)"
whose "ciphertext blob is self-contained".  The idealized token is an
injective encoding of the key together with the encrypted payload
bytes, followed by one parity byte (the XOR-fold of the rest), the
model stand-in for the HMAC tag: any single bit flip of the token is
detected, and the embedded key witnesses wrong-key rejection. -/
def fernetEncrypt (key : Nat) (plaintext : List Nat) : List Nat :=
  let payload := natToBytes (encTagged key (cipherBytes key plaintext))
  payload ++ [foldXor payload]

/-- Modelled from the spec: Fernet decryption "fails closed ... on any
tamper or wrong-key condition".  Checks the parity byte, the canonical
byte encoding, and the embedded key before returning the payload. -/
def fernetDecrypt (key : Nat) (token : List Nat) : Option (List Nat) :=
  match token.reverse with
  | [] => none
  | par :: rpayload =>
    let payload := rpayload.reverse
    if par = foldXor payload then
      let m := bytesToNat payload
      if payload = natToBytes m then
        match splitTag m m with
        | none => none
        | some p =>
            if p.1 = natToBytes key then
              match dec258 p.2 p.2 with
              | none => none
              | some ct => some (cipherBytes key ct)
            else none
      else none
    else none

theorem splitTag_enc258 : ∀ (ks : List Nat) (t f : Nat), (∀ b ∈ ks, b < 256) →
    enc258 ks (257 + 258 * t) ≤ f →
    splitTag f (enc258 ks (257 + 258 * t)) = some (ks, t)
  | [], t, f, _, hf => by
      rw [enc258] at hf ⊢
      obtain ⟨f', rfl⟩ : ∃ f', f = f' + 1 := ⟨f - 1, by omega⟩
      rw [splitTag]
      rw [if_neg (by omega), if_pos (by omega)]
      have hdiv : (257 + 258 * t) / 258 = t := by omega
      rw [hdiv]
  | b :: bs, t, f, hb, hf => by
      have hblt : b < 256 := hb b (by simp)
      rw [enc258] at hf ⊢
      obtain ⟨f', rfl⟩ : ∃ f', f = f' + 1 := ⟨f - 1, by omega⟩
      rw [splitTag]
      rw [if_neg (by omega)]
      rw [if_neg (by omega), if_neg (by omega)]
      have hdiv : (enc258 bs (257 + 258 * t) * 258 + (b + 1)) / 258 =
          enc258 bs (257 + 258 * t) := by omega
      rw [hdiv]
      rw [splitTag_enc258 bs t f' (fun x hx => hb x (by simp [hx])) (by omega)]
      have hmod : (enc258 bs (257 + 258 * t) * 258 + (b + 1)) % 258 = b + 1 := by omega
      rw [hmod]
      simp

theorem dec258_enc258 : ∀ (ct : List Nat) (f : Nat), (∀ b ∈ ct, b < 256) →
    enc258 ct 0 ≤ f → dec258 f (enc258 ct 0) = some ct
  | [], f, _, _ => by
      cases f <;> simp [enc258, dec258]
  | b :: bs, f, hb, hf => by
      have hblt : b < 256 := hb b (by simp)
      rw [enc258] at hf ⊢
      obtain ⟨f', rfl⟩ : ∃ f', f = f' + 1 := ⟨f - 1, by omega⟩
      rw [dec258]
      rw [if_neg (by omega), if_neg (by omega), if_neg (by omega)]
      have hdiv : (enc258 bs 0 * 258 + (b + 1)) / 258 = enc258 bs 0 := by omega
      rw [hdiv]
      rw [dec258_enc258 bs f' (fun x hx => hb x (by simp [hx])) (by omega)]
      have hmod : (enc258 bs 0 * 258 + (b + 1)) % 258 = b + 1 := by omega
      rw [hmod]
      simp

theorem fernetEncrypt_lt (key : Nat) (pt : List Nat) (h : ∀ b ∈ pt, b < 256) :
    ∀ b ∈ fernetEncrypt key pt, b < 256 := by
  intro b hb
  rw [fernetEncrypt] at hb
  rcases List.mem_append.mp hb with h1 | h2
  · exact natToBytes_lt _ b h1
  · have : b = foldXor (natToBytes (encTagged key (cipherBytes key pt))) := by
      simpa using h2
    subst this
    exact foldXor_lt _ (natToBytes_lt _)

theorem natToBytes_injective (m n : Nat) (h : natToBytes m = natToBytes n) : m = n := by
  have h1 := bytesToNat_natToBytes m
  rw [h, bytesToNat_natToBytes] at h1
  exact h1.symm

theorem fernetDecrypt_fernetEncrypt (key : Nat) (pt : List Nat)
    (h : ∀ b ∈ pt, b < 256) :
    fernetDecrypt key (fernetEncrypt key pt) = some pt := by
  rw [fernetEncrypt, fernetDecrypt]
  simp only [List.reverse_append, List.reverse_cons, List.reverse_nil, List.nil_append,
    List.cons_append, List.reverse_reverse, bytesToNat_natToBytes,
    if_true, eq_self_iff_true, ite_true]
  rw [encTagged]
  rw [splitTag_enc258 _ _ _ (natToBytes_lt key) (Nat.le_refl _)]
  dsimp only
  rw [if_pos rfl]
  rw [dec258_enc258 (cipherBytes key pt) _ (cipherFrom_lt key 0 pt h) (Nat.le_refl _)]
  simp only [cipherBytes]
  rw [cipherFrom_cipherFrom]

theorem fernetDecrypt_wrong_key (key key' : Nat) (pt : List Nat)
    (hk : key' ≠ key) :
    fernetDecrypt key' (fernetEncrypt key pt) = none := by
  rw [fernetEncrypt, fernetDecrypt]
  simp only [List.reverse_append, List.reverse_cons, List.reverse_nil, List.nil_append,
    List.cons_append, List.reverse_reverse, bytesToNat_natToBytes,
    if_true, eq_self_iff_true, ite_true]
  rw [encTagged]
  rw [splitTag_enc258 _ _ _ (natToBytes_lt key) (Nat.le_refl _)]
  dsimp only
  rw [if_neg (fun hkk => hk (natToBytes_injective _ _ hkk).symm)]

theorem foldXor_fernetEncrypt (key : Nat) (pt : List Nat) :
    foldXor (fernetEncrypt key pt) = 0 := by
  rw [fernetEncrypt]
  rw [foldXor_append]
  simp [foldXor, Nat.xor_self]

theorem fernetDecrypt_of_foldXor_ne (key : Nat) (token : List Nat)
    (h : foldXor token ≠ 0) : fernetDecrypt key token = none := by
  rw [fernetDecrypt]
  match htok : token.reverse with
  | [] =>
      exfalso
      apply h
      have : token = [] := by simpa using congrArg List.reverse htok
      simp [this, foldXor]
  | par :: rpayload =>
      have htok' : token = rpayload.reverse ++ [par] := by
        have := congrArg List.reverse htok
        simpa using this
      dsimp only
      rw [if_neg]
      intro hpar
      apply h
      rw [htok', foldXor_append, hpar]
      simp [foldXor, Nat.xor_self]

/-- A single bit flip anywhere in a Fernet token is rejected. -/
theorem fernetDecrypt_flipBitAt (key key' : Nat) (pt : List Nat) (i j : Nat)
    (hi : i < (fernetEncrypt key pt).length) :
    fernetDecrypt key' (flipBitAt (fernetEncrypt key pt) i j) = none := by
  apply fernetDecrypt_of_foldXor_ne
  rw [foldXor_flipBitAt _ _ _ hi, foldXor_fernetEncrypt]
  rw [Nat.zero_xor]
  exact pow_ne_zero j (by omega)

/-! ## URL-safe base64 (`base64.urlsafe_b64encode` / `urlsafe_b64decode`)

`encrypt_password` stores `base64.urlsafe_b64encode(fernet_token)` and
`decrypt_password` applies `base64.urlsafe_b64decode` first.  Strings
are byte lists of ASCII codes.  The decoder mirrors CPython behaviour
on canonically padded input; in particular, like `binascii`, it
discards the unused low bits of the final partial sextet instead of
validating them. -/

/-- Code for the padding character (ASCII 61). -/
def padCode : Nat := 61

/-- ASCII code of the urlsafe-alphabet character for a sextet. -/
def codeOfSextet (s : Nat) : Nat :=
  if s < 26 then 65 + s
  else if s < 52 then 97 + (s - 26)
  else if s < 62 then 48 + (s - 52)
  else if s = 62 then 45
  else 95

/-- Sextet value of an ASCII code, `none` outside the alphabet. -/
def sextetOfCode (c : Nat) : Option Nat :=
  if 65 ≤ c ∧ c ≤ 90 then some (c - 65)
  else if 97 ≤ c ∧ c ≤ 122 then some (26 + (c - 97))
  else if 48 ≤ c ∧ c ≤ 57 then some (52 + (c - 48))
  else if c = 45 then some 62
  else if c = 95 then some 63
  else none

theorem sextetOfCode_codeOfSextet : ∀ s < 64, sextetOfCode (codeOfSextet s) = some s := by
  decide

theorem codeOfSextet_ne_pad : ∀ s < 64, codeOfSextet s ≠ padCode := by
  decide

/-- urlsafe base64 encoding of a byte list. -/
def b64encode : List Nat → List Nat
  | [] => []
  | [a] => [codeOfSextet (a / 4), codeOfSextet (a % 4 * 16), padCode, padCode]
  | [a, b] => [codeOfSextet (a / 4), codeOfSextet (a % 4 * 16 + b / 16),
      codeOfSextet (b % 16 * 4), padCode]
  | a :: b :: c :: rest =>
      codeOfSextet (a / 4) :: codeOfSextet (a % 4 * 16 + b / 16) ::
        codeOfSextet (b % 16 * 4 + c / 64) :: codeOfSextet (c % 64) :: b64encode rest

/-- urlsafe base64 decoding; unused low bits of the final partial
sextet are discarded, as CPython does. -/
def b64decode : List Nat → Option (List Nat)
  | [] => some []
  | [_] => none
  | [_, _] => none
  | [_, _, _] => none
  | c0 :: c1 :: c2 :: c3 :: rest =>
      match sextetOfCode c0, sextetOfCode c1 with
      | some s0, some s1 =>
          if c2 = padCode then
            if c3 = padCode ∧ rest = [] then some [s0 * 4 + s1 / 16] else none
          else
            match sextetOfCode c2 with
            | some s2 =>
                if c3 = padCode then
                  if rest = [] then some [s0 * 4 + s1 / 16, s1 % 16 * 16 + s2 / 4]
                  else none
                else
                  match sextetOfCode c3, b64decode rest with
                  | some s3, some bs =>
                      some ((s0 * 4 + s1 / 16) :: (s1 % 16 * 16 + s2 / 4) ::
                        (s2 % 4 * 64 + s3) :: bs)
                  | _, _ => none
            | none => none
      | _, _ => none

theorem b64decode_b64encode : ∀ bs : List Nat, (∀ b ∈ bs, b < 256) →
    b64decode (b64encode bs) = some bs
  | [], _ => by simp [b64encode, b64decode]
  | [a], h => by
      have ha : a < 256 := h a (by simp)
      have e0 : sextetOfCode (codeOfSextet (a / 4)) = some (a / 4) :=
        sextetOfCode_codeOfSextet _ (by omega)
      have e1 : sextetOfCode (codeOfSextet (a % 4 * 16)) = some (a % 4 * 16) :=
        sextetOfCode_codeOfSextet _ (by omega)
      simp [b64encode, b64decode, e0, e1]
      all_goals omega
  | [a, b], h => by
      have ha : a < 256 := h a (by simp)
      have hb : b < 256 := h b (by simp)
      have e0 : sextetOfCode (codeOfSextet (a / 4)) = some (a / 4) :=
        sextetOfCode_codeOfSextet _ (by omega)
      have e1 : sextetOfCode (codeOfSextet (a % 4 * 16 + b / 16)) =
          some (a % 4 * 16 + b / 16) := sextetOfCode_codeOfSextet _ (by omega)
      have e2 : sextetOfCode (codeOfSextet (b % 16 * 4)) = some (b % 16 * 4) :=
        sextetOfCode_codeOfSextet _ (by omega)
      have np2 : codeOfSextet (b % 16 * 4) ≠ padCode := codeOfSextet_ne_pad _ (by omega)
      simp [b64encode, b64decode, e0, e1, e2, np2]
      all_goals omega
  | [a, b, c], h => by
      have ha : a < 256 := h a (by simp)
      have hb : b < 256 := h b (by simp)
      have hc : c < 256 := h c (by simp)
      have e0 : sextetOfCode (codeOfSextet (a / 4)) = some (a / 4) :=
        sextetOfCode_codeOfSextet _ (by omega)
      have e1 : sextetOfCode (codeOfSextet (a % 4 * 16 + b / 16)) =
          some (a % 4 * 16 + b / 16) := sextetOfCode_codeOfSextet _ (by omega)
      have e2 : sextetOfCode (codeOfSextet (b % 16 * 4 + c / 64)) =
          some (b % 16 * 4 + c / 64) := sextetOfCode_codeOfSextet _ (by omega)
      have e3 : sextetOfCode (codeOfSextet (c % 64)) = some (c % 64) :=
        sextetOfCode_codeOfSextet _ (by omega)
      have np2 : codeOfSextet (b % 16 * 4 + c / 64) ≠ padCode :=
        codeOfSextet_ne_pad _ (by omega)
      have np3 : codeOfSextet (c % 64) ≠ padCode := codeOfSextet_ne_pad _ (by omega)
      simp [b64encode, b64decode, e0, e1, e2, e3, np2, np3]
      all_goals omega
  | a :: b :: c :: d :: rest, h => by
      have ha : a < 256 := h a (by simp)
      have hb : b < 256 := h b (by simp)
      have hc : c < 256 := h c (by simp)
      have ih := b64decode_b64encode (d :: rest) (fun x hx => h x (by simp at hx ⊢; tauto))
      have e0 : sextetOfCode (codeOfSextet (a / 4)) = some (a / 4) :=
        sextetOfCode_codeOfSextet _ (by omega)
      have e1 : sextetOfCode (codeOfSextet (a % 4 * 16 + b / 16)) =
          some (a % 4 * 16 + b / 16) := sextetOfCode_codeOfSextet _ (by omega)
      have e2 : sextetOfCode (codeOfSextet (b % 16 * 4 + c / 64)) =
          some (b % 16 * 4 + c / 64) := sextetOfCode_codeOfSextet _ (by omega)
      have e3 : sextetOfCode (codeOfSextet (c % 64)) = some (c % 64) :=
        sextetOfCode_codeOfSextet _ (by omega)
      have np2 : codeOfSextet (b % 16 * 4 + c / 64) ≠ padCode :=
        codeOfSextet_ne_pad _ (by omega)
      have np3 : codeOfSextet (c % 64) ≠ padCode := codeOfSextet_ne_pad _ (by omega)
      rw [show b64encode (a :: b :: c :: d :: rest) =
        codeOfSextet (a / 4) :: codeOfSextet (a % 4 * 16 + b / 16) ::
          codeOfSextet (b % 16 * 4 + c / 64) :: codeOfSextet (c % 64) ::
          b64encode (d :: rest) from rfl]
      simp [b64decode, e0, e1, e2, e3, np2, np3, ih]
      all_goals omega

theorem b64encode_ne_nil (bs : List Nat) (h : bs ≠ []) : b64encode bs ≠ [] := by
  match bs with
  | [] => exact absurd rfl h
  | [a] => simp [b64encode]
  | [a, b] => simp [b64encode]
  | a :: b :: c :: rest => simp [b64encode]

/-! ## `Password.encrypt_password` / `Password.decrypt_password`
(models.py lines 244-283)

The record id and the group encryption key enter as their encoded
bytes (`str.encode` in the source); plaintext likewise.  The three
`ValueError` sites of the source become constructors. -/

/-- The `ValueError` outcomes of `encrypt_password` and
`decrypt_password`: no stored ciphertext, missing group or group key,
and the catch-all wrapper around any decryption failure. -/
inductive CryptoErr where
  | noEncryptedPassword : CryptoErr
  | missingGroupKey : CryptoErr
  | decryptionFailed : CryptoErr
deriving DecidableEq, Repr

/-- Source `Password.encrypt_password`: derive the per-record key, encrypt,
and store the urlsafe-base64 text of the token. -/
def encrypt_password (encryption_key password_id plain : List Nat) :
    Except CryptoErr (List Nat) :=
  if encryption_key = [] then .error .missingGroupKey
  else .ok (b64encode (fernetEncrypt (generate_key encryption_key password_id) plain))

/-- Source `Password.decrypt_password`: check the stored text and the group
key, then base64-decode and decrypt; every failure inside the `try`
block surfaces as the catch-all `ValueError`. -/
def decrypt_password (encryption_key password_id stored : List Nat) :
    Except CryptoErr (List Nat) :=
  if stored = [] then .error .noEncryptedPassword
  else if encryption_key = [] then .error .missingGroupKey
  else
    match b64decode stored with
    | none => .error .decryptionFailed
    | some token =>
        match fernetDecrypt (generate_key encryption_key password_id) token with
        | none => .error .decryptionFailed
        | some pt => .ok pt

theorem fernetEncrypt_ne_nil (key : Nat) (pt : List Nat) :
    fernetEncrypt key pt ≠ [] := by
  simp [fernetEncrypt]

theorem getD_lt_of_forall (l : List Nat) (i : Nat) (hl : ∀ b ∈ l, b < 256) :
    l.getD i 0 < 256 := by
  induction l generalizing i with
  | nil => simp [List.getD]
  | cons b bs ih =>
      cases i with
      | zero => simpa using hl b (by simp)
      | succ i =>
          simp only [List.getD_cons_succ]
          exact ih i (fun x hx => hl x (by simp [hx]))

theorem flipBitAt_lt (l : List Nat) (i j : Nat) (hl : ∀ b ∈ l, b < 256)
    (hj : j < 8) : ∀ b ∈ flipBitAt l i j, b < 256 := by
  intro b hb
  rw [flipBitAt] at hb
  rcases List.mem_or_eq_of_mem_set hb with h1 | h2
  · exact hl b h1
  · subst h2
    have hget : l.getD i 0 < 2 ^ 8 := by
      have := getD_lt_of_forall l i hl
      omega
    have hpow : 2 ^ j < 2 ^ 8 := Nat.pow_lt_pow_right (by omega) hj
    have := Nat.xor_lt_two_pow hget hpow
    omega

/-- C1: for every plaintext, non-empty group encryption key and record
id, `decrypt_password` inverts `encrypt_password` on the same record
(same group key and record id). -/
theorem C1_decrypt_encrypt_roundtrip (gk pid pt : List Nat)
    (hgk : gk ≠ []) (hpt : ∀ b ∈ pt, b < 256) :
    ∃ stored, encrypt_password gk pid pt = .ok stored ∧
      decrypt_password gk pid stored = .ok pt := by
  refine ⟨b64encode (fernetEncrypt (generate_key gk pid) pt), ?_, ?_⟩
  · rw [encrypt_password, if_neg hgk]
  · rw [decrypt_password]
    rw [if_neg (b64encode_ne_nil _ (fernetEncrypt_ne_nil _ _))]
    rw [if_neg hgk]
    rw [b64decode_b64encode _ (fernetEncrypt_lt _ _ hpt)]
    dsimp only
    rw [fernetDecrypt_fernetEncrypt _ _ hpt]

/-- Witness for C1 at a concrete key, record id and plaintext. -/
theorem C1_witness :
    ([1] : List Nat) ≠ [] ∧ (∀ b ∈ [65], b < 256) ∧
      ∃ stored, encrypt_password [1] [2] [65] = .ok stored ∧
        decrypt_password [1] [2] stored = .ok [65] :=
  ⟨by decide, by decide, C1_decrypt_encrypt_roundtrip [1] [2] [65] (by decide) (by decide)⟩

/-- C7: `_generate_key` is deterministic in its two inputs, and with a
fixed group secret two distinct record ids yield distinct keys. -/
theorem C7_generate_key_deterministic_and_salt_injective :
    (∀ gk₁ gk₂ pid₁ pid₂ : List Nat, gk₁ = gk₂ → pid₁ = pid₂ →
        generate_key gk₁ pid₁ = generate_key gk₂ pid₂) ∧
    (∀ gk pid₁ pid₂ : List Nat, (∀ b ∈ pid₁, b < 256) → (∀ b ∈ pid₂, b < 256) →
        pid₁ ≠ pid₂ → generate_key gk pid₁ ≠ generate_key gk pid₂) := by
  constructor
  · intro gk₁ gk₂ p₁ p₂ h1 h2
    rw [h1, h2]
  · intro gk p₁ p₂ h1 h2 hne heq
    rw [generate_key, generate_key] at heq
    exact hne (encodeList_injective _ _ h1 h2 (Nat.pair_eq_pair.mp heq).2)

/-- Witness for C7 at concrete inputs. -/
theorem C7_witness :
    generate_key [9] [1] = generate_key [9] [1] ∧
      generate_key [9] [1] ≠ generate_key [9] [2] :=
  ⟨C7_generate_key_deterministic_and_salt_injective.1 [9] [9] [1] [1] rfl rfl,
    C7_generate_key_deterministic_and_salt_injective.2 [9] [1] [2]
      (by decide) (by decide) (by decide)⟩

/-- C2 (amended): decryption fails closed on every wrong-key condition
and on every single bit flip of the underlying Fernet token bytes.
(Bit flips confined to the unused base64 padding bits of the stored
text do not change the decoded token; see the counterexample.) -/
theorem C2_wrong_key_and_token_tamper_fail_closed :
    (∀ gk gk' pid pt stored : List Nat,
        (∀ b ∈ pt, b < 256) → (∀ b ∈ gk, b < 256) → (∀ b ∈ gk', b < 256) →
        gk' ≠ [] → gk' ≠ gk →
        encrypt_password gk pid pt = .ok stored →
        decrypt_password gk' pid stored = .error .decryptionFailed) ∧
    (∀ gk pid pt : List Nat, ∀ i j : Nat,
        gk ≠ [] → j < 8 → (∀ b ∈ pt, b < 256) →
        i < (fernetEncrypt (generate_key gk pid) pt).length →
        decrypt_password gk pid
            (b64encode (flipBitAt (fernetEncrypt (generate_key gk pid) pt) i j)) =
          .error .decryptionFailed) := by
  constructor
  · intro gk gk' pid pt stored hpt hgk256 hgk'256 hgk' hne henc
    have hgk : gk ≠ [] := by
      intro h
      rw [encrypt_password, if_pos h] at henc
      exact Except.noConfusion henc
    rw [encrypt_password, if_neg hgk] at henc
    have hstored : stored = b64encode (fernetEncrypt (generate_key gk pid) pt) :=
      (Except.ok.injEq _ _ ▸ henc).symm
    subst hstored
    rw [decrypt_password]
    rw [if_neg (b64encode_ne_nil _ (fernetEncrypt_ne_nil _ _))]
    rw [if_neg hgk']
    rw [b64decode_b64encode _ (fernetEncrypt_lt _ _ hpt)]
    dsimp only
    have hkey : generate_key gk' pid ≠ generate_key gk pid := by
      intro h
      rw [generate_key, generate_key] at h
      exact hne (encodeList_injective _ _ hgk'256 hgk256 (Nat.pair_eq_pair.mp h).1)
    rw [fernetDecrypt_wrong_key _ _ _ hkey]
  · intro gk pid pt i j hgk hj hpt hi
    have htok := fernetEncrypt_lt (generate_key gk pid) pt hpt
    have hflip := flipBitAt_lt _ i j htok hj
    have hne : flipBitAt (fernetEncrypt (generate_key gk pid) pt) i j ≠ [] := by
      intro h
      have hlen := congrArg List.length h
      rw [flipBitAt, List.length_set, List.length_nil] at hlen
      exact fernetEncrypt_ne_nil (generate_key gk pid) pt (List.length_eq_zero.mp hlen)
    rw [decrypt_password]
    rw [if_neg (b64encode_ne_nil _ hne)]
    rw [if_neg hgk]
    rw [b64decode_b64encode _ hflip]
    dsimp only
    rw [fernetDecrypt_flipBitAt _ _ _ _ _ hi]

/-- Witness for the amended C2: a wrong-key decryption and a
token-level bit flip, both rejected. -/
theorem C2_fail_closed_witness :
    decrypt_password [2] [1] [77, 121, 115, 76, 69, 119, 61, 61] =
      .error .decryptionFailed ∧
    decrypt_password [1] [1]
        (b64encode (flipBitAt (fernetEncrypt (generate_key [1] [1]) [65]) 0 0)) =
      .error .decryptionFailed :=
  ⟨C2_wrong_key_and_token_tamper_fail_closed.1 [1] [2] [1] [65]
      [77, 121, 115, 76, 69, 119, 61, 61] (by decide) (by decide) (by decide)
      (by decide) (by decide) rfl,
    C2_wrong_key_and_token_tamper_fail_closed.2 [1] [1] [65] 0 0 (by decide)
      (by decide) (by decide) (by decide)⟩

/-- C2 counterexample: flipping one bit of the stored base64 text
(character 5, bit 6, turning code 119 into 55) lands in the unused
base64 padding bits that urlsafe base64 decoding discards, so the
decoded token is unchanged and `decrypt_password` returns the original
plaintext instead of failing. -/
theorem C2_counterexample_padding_bit_flip :
    encrypt_password [1] [1] [65] = Except.ok [77, 121, 115, 76, 69, 119, 61, 61] ∧
      flipBitAt [77, 121, 115, 76, 69, 119, 61, 61] 5 6 =
        [77, 121, 115, 76, 69, 55, 61, 61] ∧
      ([77, 121, 115, 76, 69, 55, 61, 61] : List Nat) ≠
        [77, 121, 115, 76, 69, 119, 61, 61] ∧
      decrypt_password [1] [1] [77, 121, 115, 76, 69, 55, 61, 61] = Except.ok [65] :=
  ⟨rfl, rfl, by decide, rfl⟩

/-! ## Data model (apps/groups/models.py, apps/passwords/models.py)

Users are identified by numbers; record ids are byte strings (the
`str(uuid4)` text that also serves as the KDF salt).  Timestamps are
numbers supplied by the caller (`timezone.now()`).  `created_at` and
`updated_at` bookkeeping fields are not modelled. -/

/-- Source `UserGroup.Role` (groups/models.py). -/
inductive Role where
  | owner : Role
  | admin : Role
  | member : Role
deriving DecidableEq, Repr

/-- Source `UserGroup` membership row. -/
structure UserGroup where
  user : Nat
  group : Nat
  role : Role
  added_by : Option Nat := none
deriving DecidableEq, Repr

/-- Source `Group` (groups/models.py). -/
structure Group where
  id : Nat
  name : String
  owner : Nat
  is_personal : Bool := false
  encryption_key : List Nat
deriving DecidableEq, Repr

/-- A JSON scalar allowed as a custom-field value (floats are outside
the model). -/
inductive CFVal where
  | str : String → CFVal
  | num : Int → CFVal
  | boolean : Bool → CFVal
deriving DecidableEq, Repr

/-- Source `Password` row (passwords/models.py lines 48-194). -/
structure PasswordRec where
  id : List Nat
  title : String
  username : String
  encrypted_password : List Nat
  url : String
  notes : String
  custom_fields : List (String × CFVal)
  tags : List String
  group : Nat
  directory : Option Nat := none
  created_by : Nat
  priority : String
  is_favorite : Bool := false
  last_accessed : Option Nat := none
  access_count : Nat := 0
  expires_at : Option Nat := none
  is_deleted : Bool := false
  deleted_at : Option Nat := none
  deleted_by : Option Nat := none
deriving DecidableEq, Repr

/-- Source `PasswordHistory.ChangeType`. -/
inductive ChangeType where
  | created : ChangeType
  | updated : ChangeType
  | password_changed : ChangeType
  | deleted : ChangeType
  | restored : ChangeType
deriving DecidableEq, Repr

/-- The `previous_values` snapshot taken by `update_password`
(services.py lines 197-205). -/
structure Snapshot where
  title : String
  username : String
  url : String
  notes : String
  priority : String
  custom_fields : List (String × CFVal)
  tags : List String
deriving DecidableEq, Repr

/-- The `change_summary` text, by shape (the source builds the string
from the record title). -/
inductive Summary where
  | createdSummary : String → Summary
  | updatedSummary : String → Summary
  | deletedSummary : String → Summary
deriving DecidableEq, Repr

/-- Source `PasswordHistory` row (passwords/models.py lines 358-417). -/
structure PasswordHistory where
  password : List Nat
  change_type : ChangeType
  changed_by : Nat
  previous_values : Option Snapshot := none
  change_summary : Summary
deriving DecidableEq, Repr

/-- Source `PasswordAccessLog` row (passwords/models.py lines 420-469). -/
structure PasswordAccessLog where
  password : List Nat
  user : Nat
  accessed_at : Nat
deriving DecidableEq, Repr

/-- The relational state the password services act on. -/
structure DB where
  groups : List Group
  memberships : List UserGroup
  passwords : List PasswordRec
  history : List PasswordHistory
  access_logs : List PasswordAccessLog
deriving DecidableEq, Repr

/-- Source `Group.objects.get(id=...)`. -/
def findGroup (db : DB) (gid : Nat) : Option Group :=
  db.groups.find? (fun g => g.id == gid)

/-- Source `UserGroup.objects.filter(user=..., group=...).first()`. -/
def findMembership (db : DB) (u gid : Nat) : Option UserGroup :=
  db.memberships.find? (fun m => m.user == u && m.group == gid)

/-- Source `Password.objects.get(id=...)` with the default manager, which
filters `is_deleted=False` (models.py lines 35-37). -/
def findPassword (db : DB) (pid : List Nat) : Option PasswordRec :=
  db.passwords.find? (fun p => p.id == pid && !p.is_deleted)

/-- Source `Password.all_objects.get(id=...)` / `objects.with_deleted()`:
no soft-delete filter (models.py lines 39-41 and 180). -/
def findPasswordAll (db : DB) (pid : List Nat) : Option PasswordRec :=
  db.passwords.find? (fun p => p.id == pid)

/-- Persist an updated row (same id). -/
def replacePassword (db : DB) (pw : PasswordRec) : DB :=
  { db with passwords := db.passwords.map (fun p => if p.id == pw.id then pw else p) }

/-- Source `Password.soft_delete` (models.py lines 298-303). -/
def softDelete (pw : PasswordRec) (user : Option Nat) (now : Nat) : PasswordRec :=
  { pw with is_deleted := true, deleted_at := some now, deleted_by := user }

/-! ## Access policy (services.py lines 401-449) -/

/-- Source `PasswordService._can_user_create_password`. -/
def canUserCreatePassword (db : DB) (user : Nat) (g : Group) : Bool :=
  if g.owner == user then true
  else
    match findMembership db user g.id with
    | none => false
    | some m => m.role == Role.member || m.role == Role.admin

/-- Source `PasswordService._can_user_view_password`.  The record group is
dereferenced through the store (a foreign key in the source). -/
def canUserViewPassword (db : DB) (user : Nat) (pw : PasswordRec) : Bool :=
  pw.created_by == user ||
    (match findGroup db pw.group with
     | some g => g.owner == user
     | none => false) ||
    db.memberships.any (fun m => m.user == user && m.group == pw.group)

/-- Source `PasswordService._can_user_edit_password`. -/
def canUserEditPassword (db : DB) (user : Nat) (pw : PasswordRec) : Bool :=
  pw.created_by == user ||
    (match findGroup db pw.group with
     | some g => g.owner == user
     | none => false) ||
    (match findMembership db user pw.group with
     | some m => m.role == Role.admin
     | none => false)

/-- Source `PasswordService._can_user_delete_password` delegates to the edit
check. -/
def canUserDeletePassword (db : DB) (user : Nat) (pw : PasswordRec) : Bool :=
  canUserEditPassword db user pw

/-! ## Validators (apps/passwords/validators.py)

The request payload dictionary: a field is `none` when its key is
absent.  The `expires_at` key (never written by the services) is not
part of the modelled payload.  `URLValidator` is Django-framework code
outside this repository, so URL well-formedness enters as the
parameter `urlValid`. -/

/-- A create/update payload (`password_data`). -/
structure PasswordData where
  title : Option String := none
  username : Option String := none
  url : Option String := none
  notes : Option String := none
  priority : Option String := none
  custom_fields : Option (List (String × CFVal)) := none
  tags : Option (List String) := none
  password : Option String := none
  group_id : Option Nat := none
deriving DecidableEq, Repr

/-- Python `str.strip()` whitespace. -/
def isSpaceChar (c : Char) : Bool :=
  c == ' ' || c == '\t' || c == '\n' || c == '\r' ||
    c.toNat == 11 || c.toNat == 12

/-- Python `str.strip()`: drop whitespace from both ends. -/
def pyStrip (s : String) : String :=
  String.mk (((s.toList.dropWhile isSpaceChar).reverse.dropWhile isSpaceChar).reverse)

/-- Python `str.lower()` (ASCII range, which covers every pattern the
validators compare against). -/
def lowerChar (c : Char) : Char :=
  if 65 ≤ c.toNat && c.toNat ≤ 90 then Char.ofNat (c.toNat + 32) else c

def pyLower (s : String) : String :=
  String.mk (s.toList.map lowerChar)

/-- Double-quote character (written by code to keep the source free of
quote-escaping noise). -/
def dquote : Char := Char.ofNat 34

/-- Single-quote character. -/
def squote : Char := Char.ofNat 39

/-- The characters the validator regex rejects in titles and tags. -/
def invalidChar (c : Char) : Bool :=
  c == '<' || c == '>' || c == dquote || c == squote

def validPriorities : List String := ["low", "medium", "high", "critical"]

/-- Source `PasswordValidator._validate_title` (validators.py lines 57-73). -/
def validateTitle (data : PasswordData) : Bool :=
  let t := pyStrip (data.title.getD "")
  t != "" && decide (2 ≤ t.length) && decide (t.length ≤ 255) &&
    !(t.toList.any invalidChar)

/-- Source `_validate_username` (lines 75-80). -/
def validateUsername (data : PasswordData) : Bool :=
  let u := pyStrip (data.username.getD "")
  u == "" || decide (u.length ≤ 255)

/-- Source `_validate_url` (lines 82-95); `urlValid` stands for Django
`URLValidator`. -/
def validateUrl (urlValid : String → Bool) (data : PasswordData) : Bool :=
  let u := pyStrip (data.url.getD "")
  u == "" || (decide (u.length ≤ 2000) && urlValid u)

/-- Source `_validate_notes` (lines 97-102). -/
def validateNotes (data : PasswordData) : Bool :=
  let n := pyStrip (data.notes.getD "")
  n == "" || decide (n.length ≤ 5000)

/-- Source `_validate_priority` (lines 104-112); an absent or empty value is
skipped (`if priority:`). -/
def validatePriority (data : PasswordData) : Bool :=
  match data.priority with
  | none => true
  | some p => p == "" || validPriorities.contains p

/-- Source `_validate_custom_fields` (lines 114-136); the typed model makes
the shape checks vacuous, leaving the length bounds. -/
def validateCustomFields (data : PasswordData) : Bool :=
  match data.custom_fields with
  | none => true
  | some cf =>
      cf.all (fun f => decide (f.1.length ≤ 100) &&
        (match f.2 with
         | .str s => decide (s.length ≤ 1000)
         | _ => true))

/-- Source `_validate_tags` (lines 138-165). -/
def validateTags (data : PasswordData) : Bool :=
  match data.tags with
  | none => true
  | some ts =>
      decide (ts.length ≤ 20) &&
        ts.all (fun t =>
          let t' := pyStrip t
          t' != "" && decide (t'.length ≤ 50) && !(t'.toList.any invalidChar))

/-- Source `PasswordValidator.is_valid()`. -/
def passwordValidatorOk (urlValid : String → Bool) (data : PasswordData) : Bool :=
  validateTitle data && validateUsername data && validateUrl urlValid data &&
    validateNotes data && validatePriority data && validateCustomFields data &&
    validateTags data

/-! ### `PasswordStrengthValidator` (validators.py lines 186-266) -/

def isLowerChar (c : Char) : Bool := 97 ≤ c.toNat && c.toNat ≤ 122

def isUpperChar (c : Char) : Bool := 65 ≤ c.toNat && c.toNat ≤ 90

def isDigitChar (c : Char) : Bool := 48 ≤ c.toNat && c.toNat ≤ 57

/-- The symbol class of the strength regex. -/
def strengthSymbols : List Char :=
  ['!', '@', '#', '$', '%', '^', '&', '*', '(', ')', ',', '.', '?', dquote,
    ':', Char.ofNat 123, Char.ofNat 125, '|', '<', '>']

def isStrengthSymbol (c : Char) : Bool := strengthSymbols.contains c

/-- Three identical consecutive characters (regex `(.)\1{2,}`). -/
def hasTriple : List Char → Bool
  | a :: b :: c :: rest => (a == b && b == c) || hasTriple (b :: c :: rest)
  | _ => false

/-- Substring test on character lists (Python `sub in s`). -/
def hasSubstring (sub : List Char) : List Char → Bool
  | [] => sub.isEmpty
  | c :: rest => sub.isPrefixOf (c :: rest) || hasSubstring sub rest

def sequentialNumberPatterns : List String :=
  ["012", "123", "234", "345", "456", "567", "678", "789", "890"]

def sequentialLetterPatterns : List String :=
  ["abc", "bcd", "cde", "def", "efg", "fgh", "ghi", "hij", "ijk", "jkl",
    "klm", "lmn", "mno", "nop", "opq", "pqr", "qrs", "rst", "stu", "tuv",
    "uvw", "vwx", "wxy", "xyz"]

def keyboardPatterns : List String :=
  ["qwerty", "asdf", "zxcv", "1234", "qwer", "asdfg", "zxcvb"]

def commonPasswords : List String :=
  ["password", "123456", "123456789", "qwerty", "abc123",
    "password123", "admin", "letmein", "welcome", "monkey",
    "1234567890", "password1", "123123", "qwerty123",
    "iloveyou", "princess", "admin123", "welcome123"]

/-- Source `_validate_length`. -/
def strengthLengthOk (p : String) : Bool :=
  decide (8 ≤ p.length) && decide (p.length ≤ 128)

/-- Source `_validate_complexity`. -/
def strengthComplexityOk (p : String) : Bool :=
  let l := p.toList
  let hasL := l.any isLowerChar
  let hasU := l.any isUpperChar
  let hasN := l.any isDigitChar
  let hasS := l.any isStrengthSymbol
  let cnt := (if hasL then 1 else 0) + (if hasU then 1 else 0) +
    (if hasN then 1 else 0) + (if hasS then 1 else 0)
  decide (3 ≤ cnt) && (decide (p.length < 12) || hasS)

/-- Source `_validate_patterns`. -/
def strengthPatternsOk (p : String) : Bool :=
  let l := p.toList
  let low := (pyLower p).toList
  !(hasTriple l) &&
    !(sequentialNumberPatterns.any (fun s => hasSubstring s.toList l)) &&
    !(sequentialLetterPatterns.any (fun s => hasSubstring s.toList low)) &&
    !(keyboardPatterns.any (fun s => hasSubstring s.toList low))

/-- Source `re.sub` stripping digits and strength symbols from the lowered
password. -/
def basePassword (p : String) : String :=
  String.mk ((pyLower p).toList.filter (fun c => !(isDigitChar c || isStrengthSymbol c)))

/-- Source `_validate_common_passwords`. -/
def strengthCommonOk (p : String) : Bool :=
  !(commonPasswords.contains (pyLower p)) && !(commonPasswords.contains (basePassword p))

/-- Source `PasswordStrengthValidator.is_valid()`. -/
def passwordStrengthOk (p : String) : Bool :=
  p != "" && strengthLengthOk p && strengthComplexityOk p &&
    strengthPatternsOk p && strengthCommonOk p

/-! ## PasswordService (apps/passwords/services.py)

Error outcomes keep the distinct exception classes and the distinct
message sites of the source (messages are identified, not spelt out,
to stay quote-free). -/

/-- The `PermissionDenied` message sites. -/
inductive PermMsg where
  | cannotCreate : PermMsg
  | cannotView : PermMsg
  | cannotEdit : PermMsg
  | cannotDelete : PermMsg
deriving DecidableEq, Repr

/-- The `ServiceError` message sites. -/
inductive SvcMsg where
  | passwordNotFound : SvcMsg
  | operationFailed : SvcMsg
deriving DecidableEq, Repr

/-- The exceptions a service call can surface. -/
inductive SvcErr where
  | validationError : SvcErr
  | permissionDenied : PermMsg → SvcErr
  | serviceError : SvcMsg → SvcErr
deriving DecidableEq, Repr

/-- Source `str.encode` for the ASCII payloads the services handle. -/
def strBytes (s : String) : List Nat :=
  s.toList.map Char.toNat

/-- Source `Password.clean` (models.py lines 199-215): non-blank title and a
stored ciphertext; the JSON shape checks hold by typing.  (Django
per-field framework validation such as `choices` is outside the
modelled `clean`.) -/
def passwordFullCleanOk (pw : PasswordRec) : Bool :=
  pyStrip pw.title != "" && pw.encrypted_password != []

/-- Source `Password.save` (models.py lines 217-229): `full_clean`, then
strip the text fields. -/
def savePassword (pw : PasswordRec) : Option PasswordRec :=
  if passwordFullCleanOk pw then
    some { pw with
            title := pyStrip pw.title
            username := pyStrip pw.username
            url := pyStrip pw.url }
  else none

/-- Source `PasswordService.create_password` (services.py lines 35-124).
`newId` stands for the generated `uuid4`.  Any exception other than
`ValidationError`/`PermissionDenied` is wrapped into `ServiceError`
by the catch-all handler. -/
def create_password (urlValid : String → Bool) (db : DB) (user : Nat)
    (data : PasswordData) (newId : List Nat) : Except SvcErr (DB × PasswordRec) :=
  if !(passwordValidatorOk urlValid data) then .error .validationError
  else
    match data.group_id with
    | none => .error .validationError
    | some gid =>
        match findGroup db gid with
        | none => .error .validationError
        | some g =>
            if !(canUserCreatePassword db user g) then
              .error (.permissionDenied .cannotCreate)
            else
              let plain := data.password.getD ""
              if plain == "" then .error .validationError
              else if !(passwordStrengthOk plain) then .error .validationError
              else
                match encrypt_password g.encryption_key newId (strBytes plain) with
                | .error _ => .error (.serviceError .operationFailed)
                | .ok enc =>
                    let pw : PasswordRec := {
                      id := newId
                      title := pyStrip (data.title.getD "")
                      username := pyStrip (data.username.getD "")
                      encrypted_password := enc
                      url := pyStrip (data.url.getD "")
                      notes := pyStrip (data.notes.getD "")
                      custom_fields := data.custom_fields.getD []
                      tags := data.tags.getD []
                      group := gid
                      created_by := user
                      priority := data.priority.getD "medium" }
                    match savePassword pw with
                    | none => .error (.serviceError .operationFailed)
                    | some pw' =>
                        let entry : PasswordHistory := {
                          password := pw'.id
                          change_type := .created
                          changed_by := user
                          previous_values := none
                          change_summary := .createdSummary pw'.title }
                        .ok ({ db with
                                passwords := db.passwords ++ [pw']
                                history := db.history ++ [entry] }, pw')

/-- Source `PasswordService.get_password` (services.py lines 126-163); `now`
stands for `timezone.now()` when access is recorded. -/
def get_password (db : DB) (user : Nat) (pid : List Nat)
    (record_access : Bool) (now : Nat) : Except SvcErr (DB × PasswordRec) :=
  match findPassword db pid with
  | none => .error (.serviceError .passwordNotFound)
  | some pw =>
      if !(canUserViewPassword db user pw) then
        .error (.permissionDenied .cannotView)
      else if record_access then
        let pw' := { pw with
                      last_accessed := some now
                      access_count := pw.access_count + 1 }
        let db' := replacePassword db pw'
        let entry : PasswordAccessLog := { password := pw.id, user := user, accessed_at := now }
        .ok ({ db' with access_logs := db'.access_logs ++ [entry] }, pw')
      else .ok (db, pw)

/-- Shared tail of `update_password`: save the row and append the one
history entry. -/
def finishUpdate (db : DB) (user : Nat) (prev : Snapshot) (pw1 : PasswordRec)
    (ct : ChangeType) : Except SvcErr (DB × PasswordRec) :=
  match savePassword pw1 with
  | none => .error (.serviceError .operationFailed)
  | some pw2 =>
      let entry : PasswordHistory := {
        password := pw2.id
        change_type := ct
        changed_by := user
        previous_values := some prev
        change_summary := .updatedSummary pw2.title }
      .ok ({ replacePassword db pw2 with history := db.history ++ [entry] }, pw2)

/-- The `previous_values` dictionary captured before mutation
(services.py lines 197-205). -/
def snapshotOf (pw : PasswordRec) : Snapshot :=
  { title := pw.title
    username := pw.username
    url := pw.url
    notes := pw.notes
    priority := pw.priority
    custom_fields := pw.custom_fields
    tags := pw.tags }

/-- Source `PasswordService.update_password` (services.py lines 165-247).
The secret is re-encrypted only when the payload holds a non-empty
`password` value, and then the change kind becomes
`PASSWORD_CHANGED`. -/
def update_password (urlValid : String → Bool) (db : DB) (user : Nat)
    (pid : List Nat) (data : PasswordData) : Except SvcErr (DB × PasswordRec) :=
  match findPassword db pid with
  | none => .error (.serviceError .passwordNotFound)
  | some pw =>
      if !(canUserEditPassword db user pw) then
        .error (.permissionDenied .cannotEdit)
      else if !(passwordValidatorOk urlValid data) then .error .validationError
      else
        let prev : Snapshot := snapshotOf pw
        let pw1 := { pw with
          title := pyStrip (data.title.getD pw.title)
          username := pyStrip (data.username.getD pw.username)
          url := pyStrip (data.url.getD pw.url)
          notes := pyStrip (data.notes.getD pw.notes)
          priority := data.priority.getD pw.priority
          custom_fields := data.custom_fields.getD pw.custom_fields
          tags := data.tags.getD pw.tags }
        match data.password with
        | some p =>
            if p != "" then
              if !(passwordStrengthOk p) then .error .validationError
              else
                match findGroup db pw.group with
                | none => .error (.serviceError .operationFailed)
                | some g =>
                    match encrypt_password g.encryption_key pw.id (strBytes p) with
                    | .error _ => .error (.serviceError .operationFailed)
                    | .ok enc =>
                        finishUpdate db user prev
                          { pw1 with encrypted_password := enc } .password_changed
            else finishUpdate db user prev pw1 .updated
        | none => finishUpdate db user prev pw1 .updated

/-- Source `PasswordService.delete_password` (services.py lines 249-305).
Hard deletion cascades to history and access-log rows; soft deletion
tombstones the row and appends one `DELETED` history entry. -/
def delete_password (db : DB) (user : Nat) (pid : List Nat)
    (permanent : Bool) (now : Nat) : Except SvcErr DB :=
  match (if permanent then findPasswordAll db pid else findPassword db pid) with
  | none => .error (.serviceError .passwordNotFound)
  | some pw =>
      if !(canUserDeletePassword db user pw) then
        .error (.permissionDenied .cannotDelete)
      else if permanent then
        .ok { db with
          passwords := db.passwords.filter (fun p => !(p.id == pw.id))
          history := db.history.filter (fun h => !(h.password == pw.id))
          access_logs := db.access_logs.filter (fun a => !(a.password == pw.id)) }
      else
        let entry : PasswordHistory := {
          password := pw.id
          change_type := .deleted
          changed_by := user
          previous_values := none
          change_summary := .deletedSummary pw.title }
        .ok { replacePassword db (softDelete pw (some user) now) with
          history := db.history ++ [entry] }

/-! ## A concrete vault state shared by the witnesses below -/

def exGroup : Group :=
  { id := 1, name := "G", owner := 10, encryption_key := [1] }

def exMemberM : UserGroup := { user := 11, group := 1, role := .member }

def exMemberA : UserGroup := { user := 12, group := 1, role := .admin }

def exPw : PasswordRec :=
  { id := [5]
    title := "Tt"
    username := ""
    encrypted_password := [9]
    url := ""
    notes := ""
    custom_fields := []
    tags := []
    group := 1
    created_by := 10
    priority := "medium" }

def exDB : DB :=
  { groups := [exGroup]
    memberships := [exMemberM, exMemberA]
    passwords := [exPw]
    history := []
    access_logs := [] }

/-! ## C8: response uniformity of `get_password` -/

/-- C8 (amended): a principal without view rights never obtains the
record: an existing live record yields `PermissionDenied`, an absent
(or soft-deleted) one yields the not-found `ServiceError`; the two
responses are distinct, so existence is still revealed. -/
theorem C8_no_view_rights_always_error (db : DB) (user : Nat) (pid : List Nat)
    (ra : Bool) (now : Nat) :
    (findPassword db pid = none →
      get_password db user pid ra now = .error (.serviceError .passwordNotFound)) ∧
    (∀ pw, findPassword db pid = some pw → canUserViewPassword db user pw = false →
      get_password db user pid ra now = .error (.permissionDenied .cannotView)) := by
  constructor
  · intro h
    simp [get_password, h]
  · intro pw h hview
    simp [get_password, h, hview]

/-- Witness for the amended C8 at a concrete state. -/
theorem C8_no_view_rights_always_error_witness :
    get_password { exDB with passwords := [] } 42 [5] true 0 =
      .error (.serviceError .passwordNotFound) ∧
    get_password exDB 42 [5] true 0 = .error (.permissionDenied .cannotView) :=
  ⟨(C8_no_view_rights_always_error { exDB with passwords := [] } 42 [5] true 0).1 rfl,
    (C8_no_view_rights_always_error exDB 42 [5] true 0).2 exPw rfl rfl⟩

/-- C8 counterexample: for principal `42` (no membership, not creator,
not owner) the response with the record present (`PermissionDenied`)
differs from the response with it absent (`ServiceError` not-found),
so the two runs are distinguishable and existence leaks. -/
theorem C8_counterexample_responses_differ :
    get_password exDB 42 [5] true 0 = .error (.permissionDenied .cannotView) ∧
    get_password { exDB with passwords := [] } 42 [5] true 0 =
      .error (.serviceError .passwordNotFound) ∧
    get_password exDB 42 [5] true 0 ≠
      get_password { exDB with passwords := [] } 42 [5] true 0 :=
  ⟨rfl, rfl, fun h => SvcErr.noConfusion (Except.error.inj h)⟩

/-! ## C5: soft delete versus the two managers -/

theorem findPassword_after_tombstone (ps : List PasswordRec) (pw : PasswordRec)
    (u : Option Nat) (now : Nat) :
    (ps.map (fun p => if p.id == pw.id then softDelete pw u now else p)).find?
      (fun p => p.id == pw.id && !p.is_deleted) = none := by
  induction ps with
  | nil => rfl
  | cons q qs ih =>
      by_cases hq : (q.id == pw.id) = true
      · simp only [List.map_cons, if_pos hq]
        rw [List.find?_cons_of_neg]
        · exact ih
        · simp [softDelete]
      · simp only [List.map_cons, if_neg hq]
        rw [List.find?_cons_of_neg]
        · exact ih
        · simp [hq]

theorem findPasswordAll_after_tombstone (ps : List PasswordRec) (pw : PasswordRec)
    (u : Option Nat) (now : Nat)
    (hfind : ps.find? (fun p => p.id == pw.id) = some pw) :
    (ps.map (fun p => if p.id == pw.id then softDelete pw u now else p)).find?
      (fun p => p.id == pw.id) = some (softDelete pw u now) := by
  induction ps with
  | nil => simp [List.find?] at hfind
  | cons q qs ih =>
      by_cases hq : (q.id == pw.id) = true
      · simp only [List.map_cons, if_pos hq]
        rw [List.find?_cons_of_pos]
        simp [softDelete]
      · have hfind' : qs.find? (fun p => p.id == pw.id) = some pw := by
          rwa [List.find?_cons_of_neg _ (by simp [hq])] at hfind
        simp only [List.map_cons, if_neg hq]
        rw [List.find?_cons_of_neg _ (by simp [hq])]
        exact ih hfind'

/-- C5: after `soft_delete`, the default-manager read path of
`get_password` uniformly reports not-found for every principal, while
the all-inclusive manager still returns the row with `is_deleted`
set. -/
theorem C5_soft_delete_hides_from_default_manager (db : DB) (pid : List Nat)
    (pw : PasswordRec) (u user' : Nat) (ra : Bool) (now now' : Nat)
    (hfind : findPasswordAll db pid = some pw) :
    get_password (replacePassword db (softDelete pw (some u) now)) user' pid ra now' =
      .error (.serviceError .passwordNotFound) ∧
    findPasswordAll (replacePassword db (softDelete pw (some u) now)) pid =
      some (softDelete pw (some u) now) ∧
    (softDelete pw (some u) now).is_deleted = true := by
  have hid : pw.id = pid := by
    have := List.find?_some hfind
    exact eq_of_beq this
  subst hid
  refine ⟨?_, ?_, rfl⟩
  · have h1 : findPassword (replacePassword db (softDelete pw (some u) now)) pw.id =
        none := by
      simp only [findPassword, replacePassword]
      exact findPassword_after_tombstone db.passwords pw (some u) now
    simp [get_password, h1]
  · simp only [findPasswordAll, replacePassword]
    exact findPasswordAll_after_tombstone db.passwords pw (some u) now hfind

/-- Witness for C5 at the concrete state. -/
theorem C5_witness :
    get_password (replacePassword exDB (softDelete exPw (some 10) 3)) 11 [5] true 4 =
      .error (.serviceError .passwordNotFound) ∧
    findPasswordAll (replacePassword exDB (softDelete exPw (some 10) 3)) [5] =
      some (softDelete exPw (some 10) 3) ∧
    (softDelete exPw (some 10) 3).is_deleted = true :=
  C5_soft_delete_hides_from_default_manager exDB [5] exPw 10 11 true 3 4 rfl

/-! ## C3: MEMBER role capabilities -/

/-- C3: a MEMBER-role member passes the create check (and
`create_password` never raises `PermissionDenied` when the check
passes); a member who is neither creator, group owner nor admin is
denied `update_password`; and the creator, the group owner and an
ADMIN-role member each pass the edit check. -/
theorem C3_member_role_policy :
    (∀ (db : DB) (u : Nat) (g : Group) (m : UserGroup),
      findMembership db u g.id = some m → m.role = Role.member →
      canUserCreatePassword db u g = true) ∧
    (∀ (urlValid : String → Bool) (db : DB) (u : Nat) (data : PasswordData)
      (nid : List Nat) (gid : Nat) (g : Group) (msg : PermMsg),
      data.group_id = some gid → findGroup db gid = some g →
      canUserCreatePassword db u g = true →
      create_password urlValid db u data nid ≠ .error (.permissionDenied msg)) ∧
    (∀ (urlValid : String → Bool) (db : DB) (u : Nat) (pid : List Nat)
      (data : PasswordData) (pw : PasswordRec) (g : Group) (m : UserGroup),
      findPassword db pid = some pw → pw.created_by ≠ u →
      findGroup db pw.group = some g → g.owner ≠ u →
      findMembership db u pw.group = some m → m.role = Role.member →
      update_password urlValid db u pid data = .error (.permissionDenied .cannotEdit)) ∧
    (∀ (db : DB) (u : Nat) (pw : PasswordRec), pw.created_by = u →
      canUserEditPassword db u pw = true) ∧
    (∀ (db : DB) (u : Nat) (pw : PasswordRec) (g : Group),
      findGroup db pw.group = some g → g.owner = u →
      canUserEditPassword db u pw = true) ∧
    (∀ (db : DB) (u : Nat) (pw : PasswordRec) (m : UserGroup),
      findMembership db u pw.group = some m → m.role = Role.admin →
      canUserEditPassword db u pw = true) := by
  refine ⟨?_, ?_, ?_, ?_, ?_, ?_⟩
  · intro db u g m hm hrole
    simp [canUserCreatePassword, hm, hrole]
  · intro urlValid db u data nid gid g msg hdata hg hcan heq
    simp [create_password, hdata, hg, hcan] at heq
    repeat' split at heq
    all_goals simp at heq
  · intro urlValid db u pid data pw g m hfind hcreator hg howner hm hrole
    have hedit : canUserEditPassword db u pw = false := by
      simp [canUserEditPassword, hg, hm, hrole, beq_iff_eq, hcreator, howner]
    simp [update_password, hfind, hedit]
  · intro db u pw hcreator
    simp [canUserEditPassword, beq_iff_eq, hcreator]
  · intro db u pw g hg howner
    simp [canUserEditPassword, hg, beq_iff_eq, howner]
  · intro db u pw m hm hrole
    simp [canUserEditPassword, hm, hrole]

/-- Witness for C3 at the concrete state: member `11` can create but
not edit the owner-created record; creator `10`, owner `10` and admin
`12` pass the edit check. -/
theorem C3_member_role_policy_witness :
    canUserCreatePassword exDB 11 exGroup = true ∧
    create_password (fun _ => true) exDB 11 { group_id := some 1 } [7] ≠
      .error (.permissionDenied .cannotCreate) ∧
    update_password (fun _ => true) exDB 11 [5] { title := some "T2" } =
      .error (.permissionDenied .cannotEdit) ∧
    canUserEditPassword exDB 10 exPw = true ∧
    canUserEditPassword exDB 12 exPw = true :=
  ⟨C3_member_role_policy.1 exDB 11 exGroup exMemberM rfl rfl,
    C3_member_role_policy.2.1 (fun _ => true) exDB 11 { group_id := some 1 } [7] 1
      exGroup .cannotCreate rfl rfl rfl,
    C3_member_role_policy.2.2.1 (fun _ => true) exDB 11 [5] { title := some "T2" }
      exPw exGroup exMemberM rfl (by decide) rfl (by decide) rfl rfl,
    C3_member_role_policy.2.2.2.1 exDB 10 exPw rfl,
    C3_member_role_policy.2.2.2.2.2 exDB 12 exPw exMemberA rfl rfl⟩

/-! ## C4 and C10: history on update -/

theorem finishUpdate_ok (db : DB) (user : Nat) (prev : Snapshot)
    (pw1 : PasswordRec) (ct : ChangeType) (db' : DB) (pw' : PasswordRec)
    (h : finishUpdate db user prev pw1 ct = .ok (db', pw')) :
    savePassword pw1 = some pw' ∧
    db'.history = db.history ++ [{
      password := pw'.id
      change_type := ct
      changed_by := user
      previous_values := some prev
      change_summary := .updatedSummary pw'.title }] := by
  rw [finishUpdate] at h
  cases hsave : savePassword pw1 with
  | none => rw [hsave] at h; exact Except.noConfusion h
  | some pw2 =>
      rw [hsave] at h
      simp only [Except.ok.injEq, Prod.mk.injEq] at h
      obtain ⟨hdb, hpw⟩ := h
      subst hdb
      subst hpw
      exact ⟨rfl, rfl⟩

/-- C4: every successful `update_password` appends exactly one history
entry, whose `previous_values` snapshot is the record state before the
update; the existing entries are untouched (the new history is the old
list with one row appended). -/
theorem C4_update_appends_one_history_entry (urlValid : String → Bool) (db : DB)
    (user : Nat) (pid : List Nat) (data : PasswordData) (pw : PasswordRec)
    (db' : DB) (pw' : PasswordRec)
    (hfind : findPassword db pid = some pw)
    (hok : update_password urlValid db user pid data = .ok (db', pw')) :
    ∃ e, db'.history = db.history ++ [e] ∧
      e.previous_values = some (snapshotOf pw) ∧
      e.changed_by = user ∧ e.password = pw'.id := by
  simp only [update_password, hfind] at hok
  repeat' split at hok
  all_goals first
    | exact Except.noConfusion hok
    | exact ⟨_, (finishUpdate_ok _ _ _ _ _ _ _ hok).2, rfl, rfl, rfl⟩

/-- Witness for C4: the concrete title-only update. -/
theorem C4_witness :
    ∃ e, (update_password (fun _ => true) exDB 10 [5]
        { title := some "T2" }).toOption.map (fun r => r.1.history) =
          some (exDB.history ++ [e]) ∧
      e.previous_values = some (snapshotOf exPw) ∧ e.changed_by = 10 := by
  obtain ⟨e, h1, h2, h3, h4⟩ :=
    C4_update_appends_one_history_entry (fun _ => true) exDB 10 [5]
      { title := some "T2" } exPw
      { exDB with
          passwords := [{ exPw with title := "T2" }]
          history := [{
            password := [5]
            change_type := .updated
            changed_by := 10
            previous_values := some (snapshotOf exPw)
            change_summary := .updatedSummary "T2" }] }
      { exPw with title := "T2" } rfl rfl
  exact ⟨e, by rw [show (update_password (fun _ => true) exDB 10 [5]
    { title := some "T2" }).toOption.map (fun r => r.1.history) =
      some (exDB.history ++ [e]) from by rw [← h1]; rfl], h2, h3⟩

/-- C10: when the payload omits `password` or maps it to the empty
string, a successful update leaves `encrypted_password` untouched (no
re-encryption), records change kind `UPDATED`, and still applies every
other supplied field. -/
theorem C10_update_without_secret (urlValid : String → Bool) (db : DB)
    (user : Nat) (pid : List Nat) (data : PasswordData) (pw : PasswordRec)
    (db' : DB) (pw' : PasswordRec)
    (hnosecret : data.password = none ∨ data.password = some "")
    (hfind : findPassword db pid = some pw)
    (hok : update_password urlValid db user pid data = .ok (db', pw')) :
    pw'.encrypted_password = pw.encrypted_password ∧
    pw' = { pw with
      title := pyStrip (pyStrip (data.title.getD pw.title))
      username := pyStrip (pyStrip (data.username.getD pw.username))
      url := pyStrip (pyStrip (data.url.getD pw.url))
      notes := pyStrip (data.notes.getD pw.notes)
      priority := data.priority.getD pw.priority
      custom_fields := data.custom_fields.getD pw.custom_fields
      tags := data.tags.getD pw.tags } ∧
    db'.history = db.history ++ [{
      password := pw'.id
      change_type := .updated
      changed_by := user
      previous_values := some (snapshotOf pw)
      change_summary := .updatedSummary pw'.title }] := by
  have hok' : finishUpdate db user (snapshotOf pw)
      { pw with
        title := pyStrip (data.title.getD pw.title)
        username := pyStrip (data.username.getD pw.username)
        url := pyStrip (data.url.getD pw.url)
        notes := pyStrip (data.notes.getD pw.notes)
        priority := data.priority.getD pw.priority
        custom_fields := data.custom_fields.getD pw.custom_fields
        tags := data.tags.getD pw.tags } .updated = .ok (db', pw') := by
    rcases hnosecret with h | h
    · simp only [update_password, hfind, h] at hok
      split at hok
      · exact Except.noConfusion hok
      · split at hok
        · exact Except.noConfusion hok
        · exact hok
    · simp only [update_password, hfind, h, bne_self_eq_false, Bool.false_eq_true,
        if_false] at hok
      split at hok
      · exact Except.noConfusion hok
      · split at hok
        · exact Except.noConfusion hok
        · exact hok
  obtain ⟨hsave, hhist⟩ := finishUpdate_ok _ _ _ _ _ _ _ hok'
  rw [savePassword] at hsave
  split at hsave
  · simp only [Option.some.injEq] at hsave
    subst hsave
    exact ⟨rfl, rfl, hhist⟩
  · exact Option.noConfusion hsave

/-- Witness for C10: the payload carries `password := ""` and a new
title; the stored ciphertext survives unchanged. -/
theorem C10_witness :
    (∃ pwOut : PasswordRec, ∃ dbOut : DB,
      update_password (fun _ => true) exDB 10 [5]
          { title := some "T2", password := some "" } = .ok (dbOut, pwOut) ∧
        pwOut.encrypted_password = exPw.encrypted_password) := by
  refine ⟨{ exPw with title := "T2" },
    { exDB with
        passwords := [{ exPw with title := "T2" }]
        history := [{
          password := [5]
          change_type := .updated
          changed_by := 10
          previous_values := some (snapshotOf exPw)
          change_summary := .updatedSummary "T2" }] }, rfl, ?_⟩
  exact (C10_update_without_secret (fun _ => true) exDB 10 [5]
    { title := some "T2", password := some "" } exPw
    { exDB with
        passwords := [{ exPw with title := "T2" }]
        history := [{
          password := [5]
          change_type := .updated
          changed_by := 10
          previous_values := some (snapshotOf exPw)
          change_summary := .updatedSummary "T2" }] }
    { exPw with title := "T2" } (Or.inr rfl) rfl rfl).1

/-! ## Directories (apps/directories/models.py)

`Directory.clean` (lines 84-99) is the only validation run by
`Directory.save` (`full_clean`).  Its circular-reference check
compares the parent against the directory itself only — it never walks
the ancestor chain. -/

/-- Source `Directory` row. -/
structure Directory where
  id : Nat
  name : String
  description : String := ""
  parent : Option Nat := none
  group : Nat
  created_by : Nat
deriving DecidableEq, Repr

def findDirectory (dirs : List Directory) (did : Nat) : Option Directory :=
  dirs.find? (fun d => d.id == did)

/-- The `ValidationError` sites of `Directory.clean`. -/
inductive DirErr where
  | nameEmpty : DirErr
  | nameTooLong : DirErr
  | ownParent : DirErr
  | parentOtherGroup : DirErr
deriving DecidableEq, Repr

/-- Source `Directory.clean` (models.py lines 84-99).  `self.parent == self`
is primary-key equality; the parent group is read through the store
(an always-present foreign key in the source). -/
def directoryClean (dirs : List Directory) (d : Directory) : Except DirErr Unit :=
  if pyStrip d.name == "" then .error .nameEmpty
  else if decide (100 < (pyStrip d.name).length) then .error .nameTooLong
  else
    match d.parent with
    | none => .ok ()
    | some p =>
        if p == d.id then .error .ownParent
        else
          match findDirectory dirs p with
          | some pd => if pd.group != d.group then .error .parentOtherGroup else .ok ()
          | none => .ok ()

/-- Source `Directory.save` (models.py lines 101-109): `full_clean`, strip
the name, persist (insert or replace by id). -/
def directorySave (dirs : List Directory) (d : Directory) :
    Except DirErr (List Directory) :=
  match directoryClean dirs d with
  | .error e => .error e
  | .ok _ =>
      let d' := { d with name := pyStrip d.name }
      .ok (if dirs.any (fun x => x.id == d.id) then
        dirs.map (fun x => if x.id == d.id then d' else x)
      else dirs ++ [d'])

/-- Walk the ancestor chain starting from `start` looking for
`target`, with fuel bounding the walk. -/
def inAncestorChain (dirs : List Directory) : Nat → Option Nat → Nat → Bool
  | 0, _, _ => false
  | _, none, _ => false
  | fuel + 1, some p, target =>
      p == target ||
        (match findDirectory dirs p with
         | some pd => inAncestorChain dirs fuel pd.parent target
         | none => false)

/-- A directory appearing in its own ancestor chain: a cycle. -/
def isOwnAncestor (dirs : List Directory) (d : Directory) : Bool :=
  inAncestorChain dirs dirs.length d.parent d.id

/-- C6 (amended): only the direct self-parent case (and a
cross-group parent) is rejected by `Directory.clean`; for a valid name
and `parent = self` the save raises the `ValidationError` and leaves
the stored directories unchanged.  Deeper cycles pass validation (see
the counterexample). -/
theorem C6_self_parent_rejected (dirs : List Directory) (d : Directory)
    (hname : pyStrip d.name ≠ "") (hlen : (pyStrip d.name).length ≤ 100)
    (hp : d.parent = some d.id) :
    directoryClean dirs d = .error .ownParent ∧
    ∀ res, directorySave dirs d ≠ .ok res := by
  have hclean : directoryClean dirs d = .error .ownParent := by
    rw [directoryClean]
    rw [if_neg (by simpa using hname)]
    rw [if_neg (by simp; omega)]
    rw [hp]
    simp
  refine ⟨hclean, fun res hsave => ?_⟩
  rw [directorySave, hclean] at hsave
  exact Except.noConfusion hsave

def exDirSelf : Directory :=
  { id := 1, name := "D", parent := some 1, group := 1, created_by := 10 }

/-- Witness for the amended C6. -/
theorem C6_self_parent_rejected_witness :
    directoryClean [] exDirSelf = .error .ownParent ∧
    ∀ res, directorySave [] exDirSelf ≠ .ok res :=
  C6_self_parent_rejected [] exDirSelf (by decide) (by decide) rfl

def exDirA : Directory := { id := 1, name := "A", parent := some 2, group := 7, created_by := 10 }

def exDirB : Directory := { id := 2, name := "B", group := 7, created_by := 10 }

/-- C6 counterexample: updating `B` (parent of `A`) to have parent
`A` passes `Directory.clean` and saves, producing a state where both
directories lie in their own ancestor chains — a two-step cycle the
claimed any-depth check would have rejected. -/
theorem C6_counterexample_two_cycle :
    directoryClean [exDirA, exDirB] { exDirB with parent := some 1 } = .ok () ∧
    directorySave [exDirA, exDirB] { exDirB with parent := some 1 } =
      .ok [exDirA, { exDirB with parent := some 1 }] ∧
    isOwnAncestor [exDirA, { exDirB with parent := some 1 }]
      { exDirB with parent := some 1 } = true ∧
    isOwnAncestor [exDirA, { exDirB with parent := some 1 }] exDirA = true :=
  ⟨rfl, rfl, rfl, rfl⟩

/-! ## PasswordGeneratorService.generate_password (services.py 455-539)

`secrets.choice` draws enter as the oracle `pick` (index modulo the
pool size, so every element is reachable) and the four per-class
draws `rl ru rn rs`; `secrets.SystemRandom().shuffle` enters as the
`shuffle` parameter constrained to permute its input. -/

def ascii_lowercase : List Char := "abcdefghijklmnopqrstuvwxyz".toList

def ascii_uppercase : List Char := "ABCDEFGHIJKLMNOPQRSTUVWXYZ".toList

def asciiDigits : List Char := "0123456789".toList

def backtickChar : Char := Char.ofNat 96

/-- The symbol pool `!@#$%^&*()_+-=[]\x7b\x7d|;:,.<>?`. -/
def defaultSymbols : List Char :=
  ['!', '@', '#', '$', '%', '^', '&', '*', '(', ')', '_', '+', '-', '=',
    '[', ']', Char.ofNat 123, Char.ofNat 125, '|', ';', ':', ',', '.', '<', '>', '?']

/-- The fallback set for the required symbol draw (`!@#$%^&*`). -/
def requiredSymbolSet : List Char := ['!', '@', '#', '$', '%', '^', '&', '*']

/-- The set the required symbol character is drawn from:
`custom_symbols if custom_symbols else "!@#$%^&*"`. -/
def symbolChoiceSet (custom_symbols : String) : List Char :=
  if custom_symbols != "" then custom_symbols.toList else requiredSymbolSet

/-- The accumulated `chars` pool with the ambiguous-character
`replace` calls (each removal only affects the segment it follows, so
they are per-segment filters). -/
def buildChars (include_lowercase include_uppercase include_numbers include_symbols
    exclude_ambiguous : Bool) (custom_symbols : String) : List Char :=
  (if include_lowercase then
    (if exclude_ambiguous then ascii_lowercase.filter (fun c => !(c == 'l' || c == 'o'))
     else ascii_lowercase)
   else []) ++
  (if include_uppercase then
    (if exclude_ambiguous then ascii_uppercase.filter (fun c => !(c == 'I' || c == 'O'))
     else ascii_uppercase)
   else []) ++
  (if include_numbers then
    (if exclude_ambiguous then asciiDigits.filter (fun c => !(c == '0' || c == '1'))
     else asciiDigits)
   else []) ++
  (if include_symbols then
    (if custom_symbols != "" then custom_symbols.toList
     else if exclude_ambiguous then
       defaultSymbols.filter (fun c => !(c == '|' || c == backtickChar))
     else defaultSymbols)
   else [])

/-- The `required_chars` list, one draw per selected class, in source
order (lowercase, uppercase, numbers, symbols). -/
def requiredChars (include_lowercase include_uppercase include_numbers
    include_symbols : Bool) (custom_symbols : String) (rl ru rn rs : Nat) : List Char :=
  (if include_lowercase then
    [ascii_lowercase.getD (rl % ascii_lowercase.length) 'a'] else []) ++
  (if include_uppercase then
    [ascii_uppercase.getD (ru % ascii_uppercase.length) 'A'] else []) ++
  (if include_numbers then
    [asciiDigits.getD (rn % asciiDigits.length) '0'] else []) ++
  (if include_symbols then
    [(symbolChoiceSet custom_symbols).getD
      (rs % (symbolChoiceSet custom_symbols).length) '!'] else [])

/-- The replacement loop: `password_list[i] = char` for each required
character, guarded by `i < len(password_list)`. -/
def placeRequired : List Char → List Char → Nat → List Char
  | l, [], _ => l
  | l, c :: cs, i =>
      placeRequired (if i < l.length then l.set i c else l) cs (i + 1)

/-- The two `ValueError` sites of the generator. -/
inductive GenErr where
  | lengthTooShort : GenErr
  | noCharacterType : GenErr
deriving DecidableEq, Repr

/-- Source `PasswordGeneratorService.generate_password`. -/
def generate_password (length : Nat)
    (include_uppercase include_lowercase include_numbers include_symbols
      exclude_ambiguous : Bool)
    (custom_symbols : String) (pick : Nat → Nat) (rl ru rn rs : Nat)
    (shuffle : List Char → List Char) : Except GenErr (List Char) :=
  if length < 4 then .error .lengthTooShort
  else
    let chars := buildChars include_lowercase include_uppercase include_numbers
      include_symbols exclude_ambiguous custom_symbols
    if chars.isEmpty then .error .noCharacterType
    else
      let password := (List.range length).map
        (fun i => chars.getD (pick i % chars.length) 'x')
      let req := requiredChars include_lowercase include_uppercase include_numbers
        include_symbols custom_symbols rl ru rn rs
      if req.isEmpty then .ok password
      else .ok (shuffle (placeRequired password req 0))

theorem placeRequired_length : ∀ (req l : List Char) (i : Nat),
    (placeRequired l req i).length = l.length
  | [], l, i => rfl
  | c :: cs, l, i => by
      rw [placeRequired]
      rw [placeRequired_length cs _ (i + 1)]
      split
      · exact List.length_set l i c
      · rfl

theorem getD_mem (l : List Char) (i : Nat) (d : Char) (h : i < l.length) :
    l.getD i d ∈ l := by
  have hsome : l[i]? = some l[i] := List.getElem?_eq_getElem h
  rw [List.getD_eq_getElem?_getD, hsome]
  exact List.getElem_mem h

theorem placeRequired_getElem_lt : ∀ (req l : List Char) (i j : Nat), j < i →
    (placeRequired l req i)[j]? = l[j]?
  | [], l, i, j, _ => rfl
  | c :: cs, l, i, j, hj => by
      rw [placeRequired]
      rw [placeRequired_getElem_lt cs _ (i + 1) j (by omega)]
      split
      · exact List.getElem?_set_ne (by omega)
      · rfl

theorem placeRequired_mem : ∀ (req l : List Char) (i : Nat),
    i + req.length ≤ l.length → ∀ c ∈ req, c ∈ placeRequired l req i
  | [], _, _, _, c, hc => absurd hc (by simp)
  | c' :: cs, l, i, hle, c, hc => by
      have hlt : i < l.length := by
        simp only [List.length_cons] at hle
        omega
      rw [placeRequired, if_pos hlt]
      rcases List.mem_cons.mp hc with h1 | h2
      · subst h1
        have hget : (placeRequired (l.set i c) cs (i + 1))[i]? = some c := by
          rw [placeRequired_getElem_lt cs (l.set i c) (i + 1) i (by omega)]
          exact List.getElem?_set_self hlt
        exact List.getElem?_mem hget
      · exact placeRequired_mem cs (l.set i c') (i + 1)
          (by simp only [List.length_set]; simp only [List.length_cons] at hle; omega)
          c h2

theorem toList_ne_nil (s : String) (h : s ≠ "") : s.toList ≠ [] := by
  intro hl
  apply h
  cases s with
  | mk data =>
      cases data with
      | nil => rfl
      | cons c cs => simp [String.toList] at hl

/-- C9: with `length ≥ 4` and at least one class selected, the
generator succeeds, the output has exactly the requested length, and
it contains at least one character of every selected class — drawing
the symbol representative from the custom set when one is supplied. -/
theorem C9_generate_password_length_and_classes
    (length : Nat) (incU incL incN incS exclAmb : Bool) (cs : String)
    (pick : Nat → Nat) (rl ru rn rs : Nat) (shuffle : List Char → List Char)
    (hlen : 4 ≤ length)
    (hsel : incU = true ∨ incL = true ∨ incN = true ∨ incS = true)
    (hshuffle : ∀ l, (shuffle l).Perm l) :
    ∃ out, generate_password length incU incL incN incS exclAmb cs
        pick rl ru rn rs shuffle = .ok out ∧
      out.length = length ∧
      (incL = true → ∃ c ∈ out, c ∈ ascii_lowercase) ∧
      (incU = true → ∃ c ∈ out, c ∈ ascii_uppercase) ∧
      (incN = true → ∃ c ∈ out, c ∈ asciiDigits) ∧
      (incS = true → ∃ c ∈ out, c ∈ symbolChoiceSet cs) := by
  have hsymne : symbolChoiceSet cs ≠ [] := by
    rw [symbolChoiceSet]
    by_cases hcs : (cs != "") = true
    · rw [if_pos hcs]
      exact toList_ne_nil cs (by simpa using hcs)
    · rw [if_neg hcs]
      decide
  have hsympos : 0 < (symbolChoiceSet cs).length := List.length_pos.mpr hsymne
  have hchars_ne : buildChars incL incU incN incS exclAmb cs ≠ [] := by
    rw [buildChars]
    intro hnil
    simp only [List.append_eq_nil] at hnil
    obtain ⟨⟨⟨h1, h2⟩, h3⟩, h4⟩ := hnil
    rcases hsel with h | h | h | h
    · rw [h] at h2
      revert h2
      cases exclAmb <;> decide
    · rw [h] at h1
      revert h1
      cases exclAmb <;> decide
    · rw [h] at h3
      revert h3
      cases exclAmb <;> decide
    · rw [h] at h4
      revert h4
      by_cases hcs : (cs != "") = true
      · simp only [if_true, hcs]
        intro hfalse
        exact toList_ne_nil cs (by simpa using hcs) hfalse
      · simp only [if_true, hcs, if_false, Bool.false_eq_true]
        cases exclAmb <;> decide
  have hreq_ne : requiredChars incL incU incN incS cs rl ru rn rs ≠ [] := by
    intro hnil
    rw [requiredChars] at hnil
    rcases hsel with h | h | h | h <;> rw [h] at hnil <;> simp at hnil
  have hreqlen : (requiredChars incL incU incN incS cs rl ru rn rs).length ≤ 4 := by
    rw [requiredChars]
    cases incL <;> cases incU <;> cases incN <;> cases incS <;> simp
  set chars := buildChars incL incU incN incS exclAmb cs with hcharsdef
  set pwd := (List.range length).map (fun i => chars.getD (pick i % chars.length) 'x')
    with hpwddef
  set req := requiredChars incL incU incN incS cs rl ru rn rs with hreqdef
  have hmem : ∀ c ∈ req, c ∈ shuffle (placeRequired pwd req 0) := by
    intro c hc
    have hpl : pwd.length = length := by
      rw [hpwddef]
      simp
    have hp := placeRequired_mem req pwd 0 (by rw [hpl]; omega) c hc
    exact ((hshuffle _).mem_iff).mpr hp
  refine ⟨shuffle (placeRequired pwd req 0), ?_, ?_, ?_, ?_, ?_, ?_⟩
  · rw [generate_password, if_neg (by omega)]
    dsimp only
    rw [← hcharsdef, ← hpwddef, ← hreqdef]
    rw [if_neg (by simpa [List.isEmpty_iff] using hchars_ne)]
    rw [if_neg (by simpa [List.isEmpty_iff] using hreq_ne)]
  · rw [(hshuffle _).length_eq, placeRequired_length]
    rw [hpwddef]
    simp
  · intro h
    have hrep : ascii_lowercase.getD (rl % ascii_lowercase.length) 'a' ∈ req := by
      rw [hreqdef, requiredChars, h]
      simp
    exact ⟨_, hmem _ hrep, getD_mem _ _ _ (Nat.mod_lt _ (by decide))⟩
  · intro h
    have hrep : ascii_uppercase.getD (ru % ascii_uppercase.length) 'A' ∈ req := by
      rw [hreqdef, requiredChars, h]
      simp
    exact ⟨_, hmem _ hrep, getD_mem _ _ _ (Nat.mod_lt _ (by decide))⟩
  · intro h
    have hrep : asciiDigits.getD (rn % asciiDigits.length) '0' ∈ req := by
      rw [hreqdef, requiredChars, h]
      simp
    exact ⟨_, hmem _ hrep, getD_mem _ _ _ (Nat.mod_lt _ (by decide))⟩
  · intro h
    have hrep : (symbolChoiceSet cs).getD
        (rs % (symbolChoiceSet cs).length) '!' ∈ req := by
      rw [hreqdef, requiredChars, h]
      simp
    exact ⟨_, hmem _ hrep, getD_mem _ _ _ (Nat.mod_lt _ hsympos)⟩

/-- Witness for C9: all four classes, ambiguous characters excluded,
no custom symbols, trivial randomness, identity shuffle. -/
theorem C9_witness :
    ∃ out, generate_password 8 true true true true true ""
        (fun _ => 0) 0 0 0 0 id = .ok out ∧
      out.length = 8 ∧
      (true = true → ∃ c ∈ out, c ∈ ascii_lowercase) ∧
      (true = true → ∃ c ∈ out, c ∈ ascii_uppercase) ∧
      (true = true → ∃ c ∈ out, c ∈ asciiDigits) ∧
      (true = true → ∃ c ∈ out, c ∈ symbolChoiceSet "") :=
  C9_generate_password_length_and_classes 8 true true true true true ""
    (fun _ => 0) 0 0 0 0 id (by decide) (Or.inl rfl) (fun l => List.Perm.refl l)

end PassVault
